import Mathlib

/-!
Verification of the locale-scaffolding scripts of the photography-website
repository: `generate_translations.py` and
`frontend/src/i18n/locales/translate_all.py`.

The data model follows the repository's Locale Document: a JSON object
mapping string keys to string values or nested such objects.  The
serializer embeds Python's `json.dump(data, f, ensure_ascii=False, indent=2)`
on such documents; the parser embeds `json.load` on the same grammar.
The filesystem is a map from path to file content plus a writability
predicate, and the scripts are state transformers over it.
-/

/-- A Locale Document: a JSON string, or a JSON object whose fields are
an insertion-ordered association list from string keys to documents. -/
inductive Doc where
  | str : String → Doc
  | obj : List (String × Doc) → Doc

/-- Node count of a document (used as parser fuel bound). -/
def Doc.size : Doc → Nat
  | .str _ => 1
  | .obj ms => 1 + sizeMs ms
where
  /-- Node count of a member list. -/
  sizeMs : List (String × Doc) → Nat
  | [] => 0
  | (_, v) :: ms => 1 + Doc.size v + sizeMs ms

/-- One lowercase hexadecimal digit, as Python's `json` emits in `\uXXXX`. -/
def hexDig (n : Nat) : Char :=
  if n < 10 then Char.ofNat (48 + n) else Char.ofNat (87 + n)

/-- The four hex digits of `\uXXXX` for code point `n`. -/
def toHex4 (n : Nat) : List Char :=
  [hexDig (n / 4096 % 16), hexDig (n / 256 % 16), hexDig (n / 16 % 16), hexDig (n % 16)]

/-- Escaping of one character inside a JSON string literal, as Python's
`json.dump` with `ensure_ascii=False` does: only `"`­, `\` and control
characters are escaped; everything else (in particular all non-ASCII
characters) is emitted literally. -/
def escapeChar (c : Char) : List Char :=
  if c = '"' then ['\\', '"']
  else if c = '\\' then ['\\', '\\']
  else if c = '\n' then ['\\', 'n']
  else if c = '\t' then ['\\', 't']
  else if c = '\r' then ['\\', 'r']
  else if c = '\x08' then ['\\', 'b']
  else if c = '\x0c' then ['\\', 'f']
  else if c.toNat < 32 then '\\' :: 'u' :: toHex4 c.toNat
  else [c]

/-- Escaping of a character sequence. -/
def escapeL : List Char → List Char
  | [] => []
  | c :: cs => escapeChar c ++ escapeL cs

/-- A serialized JSON string literal, quotes included. -/
def serStrChars (s : String) : List Char :=
  '"' :: (escapeL s.data ++ ['"'])

/-- `indent=2` indentation at nesting level `n`. -/
def indentChars (n : Nat) : List Char :=
  List.replicate (2 * n) ' '

mutual

/-- Serialization of a document at nesting level `lvl`, embedding
`json.dump(d, f, ensure_ascii=False, indent=2)`. -/
def serChars : Nat → Doc → List Char
  | _, .str s => serStrChars s
  | _, .obj [] => ['{', '}']
  | lvl, .obj (m :: ms) =>
    '{' :: '\n' :: (serMembs (lvl + 1) (m :: ms) ++ '\n' :: (indentChars lvl ++ ['}']))

/-- Serialization of a member list at nesting level `lvl`: each member is
`indent ++ "key": value`, members separated by `",\n"`. -/
def serMembs : Nat → List (String × Doc) → List Char
  | _, [] => []
  | lvl, (k, v) :: ms =>
    indentChars lvl ++ (serStrChars k ++ ':' :: ' ' :: (serChars lvl v ++
      (match ms with
       | [] => []
       | _ :: _ => ',' :: '\n' :: serMembs lvl ms)))

end

/-- Serialization of a document to a string, as written to each output
file by `generate_translations.py`. -/
def serDoc (d : Doc) : String :=
  ⟨serChars 0 d⟩

/-- JSON whitespace. -/
def isWs (c : Char) : Bool :=
  c = ' ' || c = '\n' || c = '\t' || c = '\r'

/-- Drop leading JSON whitespace. -/
def skipWs (cs : List Char) : List Char :=
  List.dropWhile isWs cs

/-- Value of one hexadecimal digit, upper or lower case. -/
def fromHexDig (c : Char) : Option Nat :=
  if '0' ≤ c && c ≤ '9' then some (c.toNat - 48)
  else if 'a' ≤ c && c ≤ 'f' then some (c.toNat - 87)
  else if 'A' ≤ c && c ≤ 'F' then some (c.toNat - 55)
  else none

/-- Value of a four-digit hexadecimal `\uXXXX` payload. -/
def fromHex4 (a b c d : Char) : Option Nat := do
  let x1 ← fromHexDig a
  let x2 ← fromHexDig b
  let x3 ← fromHexDig c
  let x4 ← fromHexDig d
  pure (4096 * x1 + 256 * x2 + 16 * x3 + x4)

/-- Parse the body of a JSON string literal (the opening quote already
consumed): returns the decoded characters and the input after the closing
quote.  Raw control characters are rejected, escapes are decoded. -/
def parseStr : List Char → Option (List Char × List Char)
  | [] => none
  | c :: cs =>
    if c = '"' then some ([], cs)
    else if c = '\\' then
      match cs with
      | [] => none
      | e :: cs2 =>
        if e = '"' then (parseStr cs2).map (fun p => ('"' :: p.1, p.2))
        else if e = '\\' then (parseStr cs2).map (fun p => ('\\' :: p.1, p.2))
        else if e = '/' then (parseStr cs2).map (fun p => ('/' :: p.1, p.2))
        else if e = 'n' then (parseStr cs2).map (fun p => ('\n' :: p.1, p.2))
        else if e = 't' then (parseStr cs2).map (fun p => ('\t' :: p.1, p.2))
        else if e = 'r' then (parseStr cs2).map (fun p => ('\r' :: p.1, p.2))
        else if e = 'b' then (parseStr cs2).map (fun p => ('\x08' :: p.1, p.2))
        else if e = 'f' then (parseStr cs2).map (fun p => ('\x0c' :: p.1, p.2))
        else if e = 'u' then
          match cs2 with
          | h1 :: h2 :: h3 :: h4 :: cs3 =>
            match fromHex4 h1 h2 h3 h4 with
            | some n => (parseStr cs3).map (fun p => (Char.ofNat n :: p.1, p.2))
            | none => none
          | _ => none
        else none
    else if c.toNat < 32 then none
    else (parseStr cs).map (fun p => (c :: p.1, p.2))

mutual

/-- Parse one JSON value of the Locale Document grammar (a string or an
object), with `fuel` bounding the recursion depth. -/
def parseVal : Nat → List Char → Option (Doc × List Char)
  | 0, _ => none
  | fuel + 1, cs =>
    match skipWs cs with
    | '"' :: cs1 => (parseStr cs1).map (fun p => (Doc.str ⟨p.1⟩, p.2))
    | '{' :: cs1 =>
      match skipWs cs1 with
      | '}' :: cs2 => some (Doc.obj [], cs2)
      | cs2 => (parseMembs fuel cs2).map (fun p => (Doc.obj p.1, p.2))
    | _ => none

/-- Parse a non-empty member sequence of a JSON object, starting at the
first key's opening quote, through the closing `}`. -/
def parseMembs : Nat → List Char → Option (List (String × Doc) × List Char)
  | 0, _ => none
  | fuel + 1, cs =>
    match cs with
    | '"' :: cs1 =>
      match parseStr cs1 with
      | none => none
      | some (k, cs2) =>
        match skipWs cs2 with
        | ':' :: cs3 =>
          match parseVal fuel cs3 with
          | none => none
          | some (v, cs4) =>
            match skipWs cs4 with
            | ',' :: cs5 =>
              (parseMembs fuel (skipWs cs5)).map (fun p => ((⟨k⟩, v) :: p.1, p.2))
            | '}' :: cs5 => some ([(⟨k⟩, v)], cs5)
            | _ => none
        | _ => none
    | _ => none

end

/-- Parse a complete document from a string, embedding `json.load`
restricted to the Locale Document grammar: one value, with only
whitespace allowed after it. -/
def parseDoc (s : String) : Option Doc :=
  match parseVal (s.data.length + 1) s.data with
  | some (d, rest) => if skipWs rest = [] then some d else none
  | none => none

mutual

/-- Shape equality of two documents: same key sequence and nesting at
every level (values may differ).  This is the spec's "same key set and
nesting shape" invariant. -/
def sameShape : Doc → Doc → Bool
  | .str _, .str _ => true
  | .obj ms1, .obj ms2 => sameShapeMembs ms1 ms2
  | _, _ => false

/-- Shape equality of two member lists: equal keys pointwise and
shape-equal values. -/
def sameShapeMembs : List (String × Doc) → List (String × Doc) → Bool
  | [], [] => true
  | (k1, v1) :: ms1, (k2, v2) :: ms2 =>
    k1 == k2 && sameShape v1 v2 && sameShapeMembs ms1 ms2
  | _, _ => false

end

/-- The filesystem: file contents by path, plus which paths can be
opened for writing (modelling the OS errors `open(path, 'w')` can raise). -/
structure FS where
  files : String → Option String
  writable : String → Bool

/-- Overwrite (or create) the file at `p` with `content`. -/
def setFile (fs : FS) (p : String) (content : String) : FS :=
  { fs with files := fun q => if q = p then some content else fs.files q }

/-- The ways a run can abort: `open` for reading on a missing template,
`json.load` on malformed JSON, `open(..., 'w')` on an unwritable path. -/
inductive RunError where
  | notFound
  | badJson
  | writeFail (path : String)
deriving DecidableEq

namespace GenerateTranslations

/-- The template path hardcoded in `generate_translations.py` line 11. -/
def templatePath : String := "frontend/src/i18n/locales/en.json"

/-- The hardcoded target language list, `generate_translations.py` line 18. -/
def languages : List String :=
  ["ja", "nl", "it", "pt", "ru", "zh-CN", "ko", "pl", "tr", "sv", "no"]

/-- The output path `f'frontend/src/i18n/locales/{lang}.json'` of line 25. -/
def localePath (lang : String) : String :=
  "frontend/src/i18n/locales/" ++ lang ++ ".json"

/-- The write loop of `generate_translations.py` (lines 24-30): for each
language in order, open `localePath lang` for writing and dump the
template `d` with `ensure_ascii=False, indent=2`.  An `OSError` on open
propagates (there is no handler), aborting the loop; files already
written stay on disk. -/
def scaffold (d : Doc) : List String → FS → FS × Option RunError
  | [], fs => (fs, none)
  | lang :: rest, fs =>
    if fs.writable (localePath lang) then
      scaffold d rest (setFile fs (localePath lang) (serDoc d))
    else (fs, some (.writeFail (localePath lang)))

/-- The whole script: load and parse the template (lines 11-12), then run
the write loop.  A missing or malformed template aborts before any write. -/
def run (fs : FS) : FS × Option RunError :=
  match fs.files templatePath with
  | none => (fs, some .notFound)
  | some s =>
    match parseDoc s with
    | none => (fs, some .badJson)
    | some d => scaffold d languages fs

end GenerateTranslations

namespace TranslateAll

/-- `translate_ja` from `translate_all.py` lines 15-19: returns its input. -/
def translate_ja (data : Doc) : Doc := data

/-- `translate_nl` from `translate_all.py` lines 21-23: returns its input. -/
def translate_nl (data : Doc) : Doc := data

/-- The whole `translate_all.py` script: it reads and parses `en.json`
(lines 9-10), defines the translation functions, prints two messages, and
ends.  No write operation occurs anywhere in the module. -/
def run (fs : FS) : FS × Option RunError :=
  match fs.files "en.json" with
  | none => (fs, some .notFound)
  | some s =>
    match parseDoc s with
    | none => (fs, some .badJson)
    | some _ => (fs, none)

end TranslateAll

/-- A filesystem with no files, everything writable (witness fixture). -/
def emptyFS : FS :=
  ⟨fun _ => none, fun _ => true⟩

/-- A filesystem holding a single file, everything writable (witness
fixture). -/
def oneFileFS (p content : String) : FS :=
  ⟨fun q => if q = p then some content else none, fun _ => true⟩

/-- A filesystem with no files where exactly one path is not writable
(witness fixture). -/
def oneLockedFS (locked : String) : FS :=
  ⟨fun _ => none, fun p => p != locked⟩

/-- A small concrete template document (witness fixture). -/
def sampleDoc : Doc :=
  Doc.obj [("title", Doc.str "Hello")]

namespace GenerateTranslations

theorem skipWs_cons_of_ws {c : Char} (h : isWs c = true) (cs : List Char) :
    skipWs (c :: cs) = skipWs cs := by
  simp [skipWs, List.dropWhile_cons, h]

theorem skipWs_cons_of_not {c : Char} (h : isWs c = false) (cs : List Char) :
    skipWs (c :: cs) = c :: cs := by
  simp [skipWs, List.dropWhile_cons, h]

theorem skipWs_replicate_space (n : Nat) (cs : List Char) :
    skipWs (List.replicate n ' ' ++ cs) = skipWs cs := by
  induction n with
  | zero => simp
  | succ n ih =>
    rw [List.replicate_succ, List.cons_append, skipWs_cons_of_ws (by decide)]
    exact ih

theorem skipWs_indent (n : Nat) (cs : List Char) :
    skipWs (indentChars n ++ cs) = skipWs cs :=
  skipWs_replicate_space (2 * n) cs

theorem skipWs_skipWs (cs : List Char) : skipWs (skipWs cs) = skipWs cs := by
  induction cs with
  | nil => rfl
  | cons c cs ih =>
    by_cases h : isWs c = true
    · rw [skipWs_cons_of_ws h]; exact ih
    · rw [skipWs_cons_of_not (by simpa using h), skipWs_cons_of_not (by simpa using h)]

theorem fromHex4_toHex4 :
    ∀ n, n < 32 → fromHex4 (hexDig (n / 4096 % 16)) (hexDig (n / 256 % 16))
      (hexDig (n / 16 % 16)) (hexDig (n % 16)) = some n := by
  decide

theorem parseStr_escape (s : List Char) :
    ∀ rest, parseStr (escapeL s ++ '"' :: rest) = some (s, rest) := by
  induction s with
  | nil =>
    intro rest
    rw [parseStr.eq_def]
    simp [escapeL]
  | cons c s ih =>
    intro rest
    rw [show escapeL (c :: s) ++ '"' :: rest = escapeChar c ++ (escapeL s ++ '"' :: rest) by
      simp [escapeL]]
    by_cases h1 : c = '"'
    · subst h1; rw [show escapeChar '"' = ['\\', '"'] by decide]
      rw [List.cons_append, List.cons_append, parseStr.eq_def]; simp [ih]
    by_cases h2 : c = '\\'
    · subst h2; rw [show escapeChar '\\' = ['\\', '\\'] by decide]
      rw [List.cons_append, List.cons_append, parseStr.eq_def]; simp [ih]
    by_cases h3 : c = '\n'
    · subst h3; rw [show escapeChar '\n' = ['\\', 'n'] by decide]
      rw [List.cons_append, List.cons_append, parseStr.eq_def]; simp [ih]
    by_cases h4 : c = '\t'
    · subst h4; rw [show escapeChar '\t' = ['\\', 't'] by decide]
      rw [List.cons_append, List.cons_append, parseStr.eq_def]; simp [ih]
    by_cases h5 : c = '\r'
    · subst h5; rw [show escapeChar '\r' = ['\\', 'r'] by decide]
      rw [List.cons_append, List.cons_append, parseStr.eq_def]; simp [ih]
    by_cases h6 : c = '\x08'
    · subst h6; rw [show escapeChar '\x08' = ['\\', 'b'] by decide]
      rw [List.cons_append, List.cons_append, parseStr.eq_def]; simp [ih]
    by_cases h7 : c = '\x0c'
    · subst h7; rw [show escapeChar '\x0c' = ['\\', 'f'] by decide]
      rw [List.cons_append, List.cons_append, parseStr.eq_def]; simp [ih]
    by_cases h8 : c.toNat < 32
    · have hfx := fromHex4_toHex4 c.toNat h8
      rw [show escapeChar c = '\\' :: 'u' :: toHex4 c.toNat by
        simp [escapeChar, h1, h2, h3, h4, h5, h6, h7, h8]]
      rw [toHex4]
      simp only [List.cons_append, List.nil_append]
      rw [parseStr.eq_def]
      simp [hfx, ih]
    · rw [show escapeChar c = [c] by simp [escapeChar, h1, h2, h3, h4, h5, h6, h7, h8]]
      rw [List.cons_append, List.nil_append, parseStr.eq_def]
      simp [h1, h2, h8, ih]

theorem docMembsInduction {P : Doc → Prop} {Q : List (String × Doc) → Prop}
    (hstr : ∀ s, P (.str s))
    (hobj : ∀ ms, Q ms → P (.obj ms))
    (hnil : Q [])
    (hcons : ∀ k v ms, P v → Q ms → Q ((k, v) :: ms)) :
    (∀ d, P d) ∧ ∀ ms, Q ms := by
  have key : ∀ n, (∀ d, Doc.size d ≤ n → P d) ∧
      (∀ ms, Doc.size.sizeMs ms ≤ n → Q ms) := by
    intro n
    induction n with
    | zero =>
      constructor
      · intro d hd
        cases d <;> simp [Doc.size] at hd
      · intro ms hms
        cases ms with
        | nil => exact hnil
        | cons m ms =>
          rcases m with ⟨k, v⟩
          simp [Doc.size.sizeMs] at hms
    | succ n ih =>
      constructor
      · intro d hd
        cases d with
        | str s => exact hstr s
        | obj ms =>
          apply hobj
          apply ih.2
          simp [Doc.size] at hd
          omega
      · intro ms hms
        cases ms with
        | nil => exact hnil
        | cons m ms =>
          rcases m with ⟨k, v⟩
          simp [Doc.size.sizeMs] at hms
          exact hcons k v ms (ih.1 v (by omega)) (ih.2 ms (by omega))
  exact ⟨fun d => (key (Doc.size d)).1 d le_rfl,
    fun ms => (key (Doc.size.sizeMs ms)).2 ms le_rfl⟩

theorem size_pos (d : Doc) : 1 ≤ Doc.size d := by
  cases d <;> simp [Doc.size]

theorem parseVal_cons_sp (fuel : Nat) (cs : List Char) :
    parseVal fuel (' ' :: cs) = parseVal fuel cs := by
  cases fuel with
  | zero => rfl
  | succ f => simp [parseVal, skipWs_cons_of_ws, isWs]

theorem skipWs_serMembs_nil (lvl : Nat) (k : String) (v : Doc) (X : List Char) :
    skipWs (serMembs lvl [(k, v)] ++ X)
      = '"' :: (escapeL k.data ++ '"' :: (':' :: ' ' :: (serChars lvl v ++ X))) := by
  simp [serMembs, serStrChars, List.append_assoc, List.cons_append, skipWs_indent,
    skipWs_cons_of_not, isWs]

theorem skipWs_serMembs_cons (lvl : Nat) (k : String) (v : Doc) (m2 : String × Doc)
    (ms2 : List (String × Doc)) (X : List Char) :
    skipWs (serMembs lvl ((k, v) :: m2 :: ms2) ++ X)
      = '"' :: (escapeL k.data ++ '"' :: (':' :: ' ' :: (serChars lvl v ++
          (',' :: '\n' :: (serMembs lvl (m2 :: ms2) ++ X))))) := by
  simp [serMembs, serStrChars, List.append_assoc, List.cons_append, skipWs_indent,
    skipWs_cons_of_not, isWs]

theorem parse_ser_roundtrip :
    (∀ d : Doc, ∀ fuel lvl rest, Doc.size d ≤ fuel →
        parseVal fuel (serChars lvl d ++ rest) = some (d, rest)) ∧
    ∀ ms : List (String × Doc), ∀ fuel lvl cl rest, ms ≠ [] → Doc.size.sizeMs ms ≤ fuel →
        parseMembs fuel (skipWs (serMembs lvl ms ++ '\n' :: (indentChars cl ++ '}' :: rest)))
          = some (ms, rest) := by
  apply docMembsInduction
    (P := fun d => ∀ fuel lvl rest, Doc.size d ≤ fuel →
      parseVal fuel (serChars lvl d ++ rest) = some (d, rest))
    (Q := fun ms => ∀ fuel lvl cl rest, ms ≠ [] → Doc.size.sizeMs ms ≤ fuel →
      parseMembs fuel (skipWs (serMembs lvl ms ++ '\n' :: (indentChars cl ++ '}' :: rest)))
        = some (ms, rest))
  · intro s fuel lvl rest hf
    cases fuel with
    | zero => simp [Doc.size] at hf
    | succ f =>
      simp [serChars, serStrChars, List.cons_append, List.append_assoc, parseVal,
        skipWs_cons_of_not, isWs, parseStr_escape]
  · intro ms hQ fuel lvl rest hf
    cases fuel with
    | zero => simp [Doc.size] at hf
    | succ f =>
      cases ms with
      | nil =>
        simp [serChars, List.cons_append, parseVal, skipWs_cons_of_not, isWs]
      | cons m ms2 =>
        rcases m with ⟨k, v⟩
        have hsz : Doc.size.sizeMs ((k, v) :: ms2) ≤ f := by
          simp [Doc.size] at hf
          omega
        have hq := hQ f (lvl + 1) lvl rest (by simp) hsz
        simp only [serChars, List.cons_append, List.append_assoc, List.singleton_append,
          List.nil_append]
        cases ms2 with
        | nil =>
          rw [skipWs_serMembs_nil] at hq
          simp [parseVal, skipWs_cons_of_not, skipWs_cons_of_ws, isWs,
            skipWs_serMembs_nil, hq]
        | cons m3 ms3 =>
          rw [skipWs_serMembs_cons] at hq
          simp [parseVal, skipWs_cons_of_not, skipWs_cons_of_ws, isWs,
            skipWs_serMembs_cons, hq]
  · intro fuel lvl cl rest hne
    exact absurd rfl hne
  · intro k v ms hP hQ fuel lvl cl rest hne hsz
    simp only [Doc.size.sizeMs] at hsz
    have hvpos := size_pos v
    cases fuel with
    | zero => omega
    | succ f =>
      have hv : ∀ Z, parseVal f (serChars lvl v ++ Z) = some (v, Z) :=
        fun Z => hP f lvl Z (by omega)
      cases ms with
      | nil =>
        rw [skipWs_serMembs_nil]
        simp [parseMembs, parseStr_escape, skipWs_cons_of_not, skipWs_cons_of_ws,
          skipWs_indent, isWs, parseVal_cons_sp, hv]
      | cons m2 ms2 =>
        have hszpos : 1 ≤ Doc.size.sizeMs (m2 :: ms2) := by
          rcases m2 with ⟨k2, v2⟩
          simp [Doc.size.sizeMs]
          omega
        have hq : parseMembs f (skipWs (serMembs lvl (m2 :: ms2)
            ++ '\n' :: (indentChars cl ++ '}' :: rest))) = some (m2 :: ms2, rest) :=
          hQ f lvl cl rest (by simp) (by omega)
        rw [skipWs_serMembs_cons]
        simp [parseMembs, parseStr_escape, skipWs_cons_of_not, skipWs_cons_of_ws,
          isWs, parseVal_cons_sp, hv, hq]

theorem size_le_serLength :
    (∀ d : Doc, ∀ lvl, Doc.size d ≤ (serChars lvl d).length) ∧
    ∀ ms : List (String × Doc), ∀ lvl, Doc.size.sizeMs ms ≤ (serMembs lvl ms).length := by
  apply docMembsInduction
    (P := fun d => ∀ lvl, Doc.size d ≤ (serChars lvl d).length)
    (Q := fun ms => ∀ lvl, Doc.size.sizeMs ms ≤ (serMembs lvl ms).length)
  · intro s lvl
    simp [Doc.size, serChars, serStrChars]
  · intro ms hQ lvl
    cases ms with
    | nil => simp [Doc.size, Doc.size.sizeMs, serChars]
    | cons m ms2 =>
      have h := hQ (lvl + 1)
      simp only [Doc.size, serChars, List.length_cons, List.length_append]
      omega
  · intro lvl
    simp [Doc.size.sizeMs, serMembs]
  · intro k v ms hP hQ lvl
    have h1 := hP lvl
    have h2 := hQ lvl
    cases ms with
    | nil =>
      simp only [Doc.size.sizeMs, serMembs, List.length_append, List.length_cons]
      omega
    | cons m2 ms2 =>
      simp only [Doc.size.sizeMs, serMembs, List.length_append, List.length_cons] at h2 ⊢
      omega

theorem parseDoc_serDoc (d : Doc) : parseDoc (serDoc d) = some d := by
  have hsize : Doc.size d ≤ (serChars 0 d).length + 1 :=
    le_trans (size_le_serLength.1 d 0) (Nat.le_succ _)
  have h := parse_ser_roundtrip.1 d ((serChars 0 d).length + 1) 0 [] hsize
  rw [List.append_nil] at h
  have hd : (serDoc d).data = serChars 0 d := rfl
  simp [parseDoc, hd, h, skipWs]

theorem sameShape_refl :
    (∀ d : Doc, sameShape d d = true) ∧ ∀ ms, sameShapeMembs ms ms = true := by
  apply docMembsInduction
    (P := fun d => sameShape d d = true)
    (Q := fun ms => sameShapeMembs ms ms = true)
  · intro s; simp [sameShape]
  · intro ms h; simp [sameShape, h]
  · simp [sameShapeMembs]
  · intro k v ms h1 h2; simp [sameShapeMembs, h1, h2]

theorem localePath_inj {a b : String} (h : localePath a = localePath b) : a = b := by
  unfold localePath at h
  have h2 : ("frontend/src/i18n/locales/" : String).data ++ (a.data ++ (".json" : String).data)
      = ("frontend/src/i18n/locales/" : String).data ++ (b.data ++ (".json" : String).data) := by
    have := congrArg String.data h
    simpa using this
  have h3 := List.append_cancel_left h2
  have h4 := List.append_cancel_right h3
  exact String.ext h4

theorem scaffold_writable (d : Doc) (L : List String) (fs : FS) (p : String) :
    ((scaffold d L fs).1).writable p = fs.writable p := by
  induction L generalizing fs with
  | nil => rfl
  | cons l rest ih =>
    unfold scaffold
    by_cases h : fs.writable (localePath l) = true
    · simp only [h, if_true]
      rw [ih]
      rfl
    · simp only [h]
      simp at h
      simp [h]

theorem scaffold_ok (d : Doc) (L : List String) (fs : FS)
    (hW : ∀ l ∈ L, fs.writable (localePath l) = true) :
    (scaffold d L fs).2 = none := by
  induction L generalizing fs with
  | nil => rfl
  | cons l rest ih =>
    unfold scaffold
    have hl : fs.writable (localePath l) = true := hW l (by simp)
    simp only [hl, if_true]
    exact ih _ (fun x hx => hW x (by simp [hx]))

theorem scaffold_files_not_mem (d : Doc) (L : List String) (fs : FS) (p : String)
    (hp : p ∉ L.map localePath) :
    (scaffold d L fs).1.files p = fs.files p := by
  induction L generalizing fs with
  | nil => rfl
  | cons l rest ih =>
    simp only [List.map_cons, List.mem_cons, not_or] at hp
    unfold scaffold
    by_cases h : fs.writable (localePath l) = true
    · simp only [h, if_true]
      rw [ih _ hp.2]
      simp [setFile, hp.1]
    · simp at h
      simp [h]

theorem scaffold_files_mem (d : Doc) (L : List String) (fs : FS)
    (hW : ∀ l ∈ L, fs.writable (localePath l) = true) (c : String) (hc : c ∈ L) :
    (scaffold d L fs).1.files (localePath c) = some (serDoc d) := by
  induction L generalizing fs with
  | nil => cases hc
  | cons l rest ih =>
    unfold scaffold
    have hl : fs.writable (localePath l) = true := hW l (by simp)
    simp only [hl, if_true]
    by_cases hcr : c ∈ rest
    · exact ih _ (fun x hx => hW x (by simp [hx])) hcr
    · have hcl : c = l := by
        rcases List.mem_cons.mp hc with h | h
        · exact h
        · exact absurd h hcr
      subst hcl
      have hnotin : localePath c ∉ rest.map localePath := by
        intro hmem
        rcases List.mem_map.mp hmem with ⟨x, hx, he⟩
        exact hcr (localePath_inj he.symm ▸ hx)
      rw [scaffold_files_not_mem d rest _ _ hnotin]
      simp [setFile]

theorem localePath_injective : Function.Injective localePath :=
  fun _ _ h => localePath_inj h

theorem scaffold_files_stable (d : Doc) (L : List String) (fs : FS) (p : String)
    (h : fs.files p = some (serDoc d)) :
    (scaffold d L fs).1.files p = some (serDoc d) := by
  induction L generalizing fs with
  | nil => exact h
  | cons l rest ih =>
    unfold scaffold
    by_cases hw : fs.writable (localePath l) = true
    · simp only [hw, if_true]
      apply ih
      simp only [setFile]
      by_cases hp : p = localePath l <;> simp [hp, h]
    · simp at hw
      simp [hw, h]

theorem scaffold_append (d : Doc) (A B : List String) (fs : FS)
    (hA : ∀ l ∈ A, fs.writable (localePath l) = true) :
    scaffold d (A ++ B) fs = scaffold d B (scaffold d A fs).1 := by
  induction A generalizing fs with
  | nil => rfl
  | cons l rest ih =>
    have hl : fs.writable (localePath l) = true := hA l (by simp)
    simp only [List.cons_append, scaffold, hl, if_true]
    exact ih _ (fun x hx => hA x (by simp [hx]))

theorem escapeChar_nonascii (ch : Char) (h : 128 ≤ ch.toNat) : escapeChar ch = [ch] := by
  have h1 : ch ≠ '"' := fun e => absurd (e ▸ h) (by decide)
  have h2 : ch ≠ '\\' := fun e => absurd (e ▸ h) (by decide)
  have h3 : ch ≠ '\n' := fun e => absurd (e ▸ h) (by decide)
  have h4 : ch ≠ '\t' := fun e => absurd (e ▸ h) (by decide)
  have h5 : ch ≠ '\r' := fun e => absurd (e ▸ h) (by decide)
  have h6 : ch ≠ '\x08' := fun e => absurd (e ▸ h) (by decide)
  have h7 : ch ≠ '\x0c' := fun e => absurd (e ▸ h) (by decide)
  have h8 : ¬ ch.toNat < 32 := by omega
  simp [escapeChar, h1, h2, h3, h4, h5, h6, h7, h8]

theorem localePath_dedup_count (L : List String) :
    (L.map localePath).dedup.length = L.dedup.length := by
  rw [List.dedup_map_of_injective localePath_injective L, List.length_map]

/-- C1: for every template document and non-empty code list (with all
output paths writable), the write loop succeeds and produces exactly
`len(unique(L))` output files: the paths touched are exactly the image
of the list under `localePath` (whose deduplicated count equals the
deduplicated count of the list, every other path being untouched), and
each output file's content parses back as JSON to a document with the
same key set and nesting shape as the template. -/
theorem scaffold_file_count_and_shape (d : Doc) (L : List String) (fs : FS)
    (hW : ∀ l ∈ L, fs.writable (localePath l) = true) (hne : L ≠ []) :
    (scaffold d L fs).2 = none ∧
    (L.map localePath).dedup.length = L.dedup.length ∧
    (∀ p, p ∉ L.map localePath → (scaffold d L fs).1.files p = fs.files p) ∧
    ∀ c ∈ L, ∃ content, (scaffold d L fs).1.files (localePath c) = some content ∧
      ∃ T, parseDoc content = some T ∧ sameShape T d = true :=
  have _ := hne
  ⟨scaffold_ok d L fs hW, localePath_dedup_count L,
   fun p hp => scaffold_files_not_mem d L fs p hp,
   fun c hc => ⟨serDoc d, scaffold_files_mem d L fs hW c hc,
     d, parseDoc_serDoc d, sameShape_refl.1 d⟩⟩

/-- Witness for C1: the sample template with codes `ja`, `nl` on the
empty filesystem: no error, two distinct output files, other paths
untouched, and each file parses to a document shaped like the template. -/
theorem scaffold_file_count_and_shape_witness :
    (scaffold sampleDoc ["ja", "nl"] emptyFS).2 = none ∧
    ((["ja", "nl"].map localePath).dedup.length = (["ja", "nl"] : List String).dedup.length) ∧
    (∀ p, p ∉ ["ja", "nl"].map localePath →
        (scaffold sampleDoc ["ja", "nl"] emptyFS).1.files p = emptyFS.files p) ∧
    ∀ c ∈ ["ja", "nl"], ∃ content,
        (scaffold sampleDoc ["ja", "nl"] emptyFS).1.files (localePath c) = some content ∧
        ∃ T, parseDoc content = some T ∧ sameShape T sampleDoc = true :=
  scaffold_file_count_and_shape sampleDoc ["ja", "nl"] emptyFS (fun _ _ => rfl) (by decide)

/-- C2: every file the write loop produces for a code `c` in the list is
at path `frontend/src/i18n/locales/<c>.json` and holds exactly the
serialization of the template: values verbatim (no translation), 2-space
indentation, and non-ASCII characters emitted literally rather than
escaped (`ensure_ascii=False`). -/
theorem scaffold_output_content (d : Doc) (L : List String) (fs : FS)
    (hW : ∀ l ∈ L, fs.writable (localePath l) = true) (c : String) (hc : c ∈ L) :
    (scaffold d L fs).1.files ("frontend/src/i18n/locales/" ++ c ++ ".json")
        = some (serDoc d) ∧
    (∀ ch : Char, 128 ≤ ch.toNat → escapeChar ch = [ch]) ∧
    (∀ n : Nat, indentChars n = List.replicate (2 * n) ' ') := by
  refine ⟨?_, escapeChar_nonascii, fun _ => rfl⟩
  exact scaffold_files_mem d L fs hW c hc

/-- Witness for C2: with the sample template and codes `ja`, `nl` on an
empty filesystem, the file for `nl` is at the expected path with the
serialized template as content. -/
theorem scaffold_output_content_witness :
    (scaffold sampleDoc ["ja", "nl"] emptyFS).1.files
        ("frontend/src/i18n/locales/" ++ "nl" ++ ".json") = some (serDoc sampleDoc) ∧
    (∀ ch : Char, 128 ≤ ch.toNat → escapeChar ch = [ch]) ∧
    (∀ n : Nat, indentChars n = List.replicate (2 * n) ' ') :=
  scaffold_output_content sampleDoc ["ja", "nl"] emptyFS
    (fun _ _ => rfl) "nl" (by simp)

/-- C3: the write loop is idempotent: running it twice with the same
template and code list (and no external modification in between) leaves
every file with exactly the content it had after the first run, and the
second run succeeds. -/
theorem scaffold_idempotent (d : Doc) (L : List String) (fs : FS)
    (hW : ∀ l ∈ L, fs.writable (localePath l) = true) :
    (scaffold d L (scaffold d L fs).1).2 = none ∧
    ∀ p, (scaffold d L (scaffold d L fs).1).1.files p = (scaffold d L fs).1.files p := by
  have hW1 : ∀ l ∈ L, ((scaffold d L fs).1).writable (localePath l) = true := by
    intro l hl
    rw [scaffold_writable]
    exact hW l hl
  refine ⟨scaffold_ok d L _ hW1, ?_⟩
  intro p
  by_cases hp : p ∈ L.map localePath
  · rcases List.mem_map.mp hp with ⟨c, hc, rfl⟩
    rw [scaffold_files_mem d L _ hW1 c hc, scaffold_files_mem d L fs hW c hc]
  · rw [scaffold_files_not_mem d L _ p hp, scaffold_files_not_mem d L fs p hp]

/-- Witness for C3: two runs with the sample template and codes `ja`,
`nl` on the empty filesystem agree on every file, and the second run
reports no error. -/
theorem scaffold_idempotent_witness :
    (scaffold sampleDoc ["ja", "nl"]
        (scaffold sampleDoc ["ja", "nl"] emptyFS).1).2 = none ∧
    ∀ p, (scaffold sampleDoc ["ja", "nl"]
        (scaffold sampleDoc ["ja", "nl"] emptyFS).1).1.files p
      = (scaffold sampleDoc ["ja", "nl"] emptyFS).1.files p :=
  scaffold_idempotent sampleDoc ["ja", "nl"] emptyFS (fun _ _ => rfl)

/-- C6: when the write for some code fails (its path is not writable)
and the writes for the earlier codes succeeded, the loop aborts with the
write error naming that code's file, and every file written for the
earlier codes is still present with its full content — nothing is rolled
back or removed. -/
theorem scaffold_write_failure (d : Doc) (L1 : List String) (c : String)
    (L2 : List String) (fs : FS)
    (hok : ∀ l ∈ L1, fs.writable (localePath l) = true)
    (hbad : fs.writable (localePath c) = false) :
    (scaffold d (L1 ++ c :: L2) fs).2 = some (RunError.writeFail (localePath c)) ∧
    ∀ l ∈ L1, (scaffold d (L1 ++ c :: L2) fs).1.files (localePath l)
      = some (serDoc d) := by
  induction L1 generalizing fs with
  | nil =>
    refine ⟨?_, by simp⟩
    unfold scaffold
    simp [hbad]
  | cons l rest ih =>
    have hl : fs.writable (localePath l) = true := hok l (by simp)
    simp only [List.cons_append]
    unfold scaffold
    simp only [hl, if_true]
    have hok' : ∀ x ∈ rest, (setFile fs (localePath l) (serDoc d)).writable (localePath x) = true :=
      fun x hx => hok x (by simp [hx])
    have hbad' : (setFile fs (localePath l) (serDoc d)).writable (localePath c) = false := hbad
    rcases ih (setFile fs (localePath l) (serDoc d)) hok' hbad' with ⟨herr, hfiles⟩
    refine ⟨herr, ?_⟩
    intro x hx
    rcases List.mem_cons.mp hx with hxl | hxr
    · subst hxl
      apply scaffold_files_stable
      simp [setFile]
    · exact hfiles x hxr

/-- Witness for C6: codes `ja`, `nl` writable, `it` locked: the loop
aborts with the write error for `it.json` and the files for `ja` and
`nl` are on disk with the serialized template. -/
theorem scaffold_write_failure_witness :
    (scaffold sampleDoc (["ja", "nl"] ++ "it" :: ["pt"])
        (oneLockedFS (localePath "it"))).2
      = some (RunError.writeFail (localePath "it")) ∧
    ∀ l ∈ ["ja", "nl"], (scaffold sampleDoc (["ja", "nl"] ++ "it" :: ["pt"])
        (oneLockedFS (localePath "it"))).1.files (localePath l)
      = some (serDoc sampleDoc) :=
  scaffold_write_failure sampleDoc ["ja", "nl"] "it" ["pt"] (oneLockedFS (localePath "it"))
    (by decide) (by simp [oneLockedFS])

/-- C7: duplicate codes are permitted: the loop processes the list in
sequence order (appending segments composes runs), a list containing a
code twice still completes without error, and the final content of the
duplicated code's file is the content written by the later occurrence,
namely the serialized template. -/
theorem scaffold_duplicate_codes (d : Doc) (c : String) (L1 L2 L3 : List String) (fs : FS)
    (hW : ∀ l ∈ L1 ++ c :: L2 ++ c :: L3, fs.writable (localePath l) = true) :
    (scaffold d (L1 ++ c :: L2 ++ c :: L3) fs).2 = none ∧
    (scaffold d (L1 ++ c :: L2 ++ c :: L3) fs).1.files (localePath c)
      = some (serDoc d) ∧
    scaffold d (L1 ++ c :: L2 ++ c :: L3) fs
      = scaffold d (c :: L3) (scaffold d (L1 ++ c :: L2) fs).1 := by
  refine ⟨scaffold_ok d _ fs hW, ?_, ?_⟩
  · exact scaffold_files_mem d _ fs hW c (by simp)
  · have hsplit : L1 ++ c :: L2 ++ c :: L3 = (L1 ++ c :: L2) ++ (c :: L3) := by
      simp
    rw [hsplit]
    apply scaffold_append
    intro l hl
    apply hW
    rw [hsplit]
    exact List.mem_append_left _ hl

/-- Witness for C7: the list `[ja, nl, nl, it]` (code `nl` duplicated)
completes without error, `nl.json` holds the serialized template (the
later occurrence's write), and the run factors at the second `nl`. -/
theorem scaffold_duplicate_codes_witness :
    (scaffold sampleDoc (["ja"] ++ "nl" :: [] ++ "nl" :: ["it"]) emptyFS).2 = none ∧
    (scaffold sampleDoc (["ja"] ++ "nl" :: [] ++ "nl" :: ["it"]) emptyFS).1.files
        (localePath "nl") = some (serDoc sampleDoc) ∧
    scaffold sampleDoc (["ja"] ++ "nl" :: [] ++ "nl" :: ["it"]) emptyFS
      = scaffold sampleDoc ("nl" :: ["it"])
          (scaffold sampleDoc (["ja"] ++ "nl" :: []) emptyFS).1 :=
  scaffold_duplicate_codes sampleDoc "nl" ["ja"] [] ["it"] emptyFS (fun _ _ => rfl)

/-- C4: if the template file does not exist at
`frontend/src/i18n/locales/en.json`, the run of
`generate_translations.py` fails with the not-found error and the
filesystem is returned unchanged: zero output files are written, since
the failing `open` on line 11 precedes every write of the loop. -/
theorem run_missing_template (fs : FS) (h : fs.files templatePath = none) :
    run fs = (fs, some RunError.notFound) := by
  simp [run, h]

/-- Witness for C4: the empty filesystem has no template, and the run
errors with `notFound` leaving the filesystem unchanged. -/
theorem run_missing_template_witness :
    run emptyFS = (emptyFS, some RunError.notFound) :=
  run_missing_template emptyFS rfl

/-- C5: if the template file exists but its content is not valid JSON
(its parse fails), the run of `generate_translations.py` fails with the
parse error and the filesystem is returned unchanged: `json.load` on
line 12 raises before any write of the loop is attempted. -/
theorem run_malformed_template (fs : FS) (s : String)
    (h1 : fs.files templatePath = some s) (h2 : parseDoc s = none) :
    run fs = (fs, some RunError.badJson) := by
  simp [run, h1, h2]

/-- Witness for C5: a template holding the text `not json` fails to
parse, and the run errors with `badJson` writing nothing. -/
theorem run_malformed_template_witness :
    run (oneFileFS templatePath "not json")
      = (oneFileFS templatePath "not json", some RunError.badJson) :=
  run_malformed_template (oneFileFS templatePath "not json") "not json"
    (by simp [oneFileFS]) (by rfl)

/-- C9: the template is never overwritten: the code `en` is not in the
hardcoded language list, every output path differs from the template
path `frontend/src/i18n/locales/en.json`, and after any run of
`generate_translations.py` the content stored at the template path is
exactly what it was before. -/
theorem template_never_overwritten :
    "en" ∉ languages ∧
    (∀ lang ∈ languages, localePath lang ≠ templatePath) ∧
    ∀ fs : FS, (run fs).1.files templatePath = fs.files templatePath := by
  refine ⟨by decide, by decide, ?_⟩
  intro fs
  cases h1 : fs.files templatePath with
  | none => simp [run, h1]
  | some s =>
    cases h2 : parseDoc s with
    | none => simp [run, h1, h2]
    | some d =>
      simp only [run, h1, h2]
      rw [scaffold_files_not_mem d languages fs templatePath (by decide)]
      exact h1

end GenerateTranslations

namespace TranslateAll

/-- C8: the translation functions of `translate_all.py` are the
identity: `translate_ja` and `translate_nl` both return their input
document unchanged for every document. -/
theorem translate_functions_identity :
    ∀ d : Doc, translate_ja d = d ∧ translate_nl d = d :=
  fun _ => ⟨rfl, rfl⟩

/-- C10: running `translate_all.py` writes no files: whatever the
filesystem holds (template present or missing, parseable or not), the
filesystem after the run is exactly the filesystem before it — the
script's only filesystem access is the read of `en.json`. -/
theorem run_writes_nothing : ∀ fs : FS, (run fs).1 = fs := by
  intro fs
  cases h1 : fs.files "en.json" with
  | none => simp [run, h1]
  | some s =>
    cases h2 : parseDoc s with
    | none => simp [run, h1, h2]
    | some d => simp [run, h1, h2]

end TranslateAll
